import Mathlib

/-!
Verification development for the atom/residue selection language of the
PQAnalysis repository.

The surface syntax is defined by `PQAnalysis/grammar/selection.lark`.  The
definitions below embed that grammar as an executable scannerless
recursive-descent parser over `List Char`:

* the terminal classes `LETTER`, `DIGIT`, signed/unsigned integers and the
  ignored whitespace follow the grammar's terminal imports;
* the keyword literals `"atom("`, `"elem("`, `"res("` and `"res~"` carry the
  grammar's `i` (case-insensitive) flag, while the literal `"all"` does not
  (it is case-sensitive in the grammar) and `"*"` is an alternative of the
  `all` rule;
* rule priorities (`without_statement.3`, `and_statement.2`, plain
  `or_statement`; `all.3` over `word.2`; `index.2`/`indices.2` alongside
  `word.2`) are realized as the precedence `,` outermost, then `|`, then `&`
  tightest, and by trying the `all` keyword before the `word` rule, per the
  precedence table the specification documents for the grammar's
  priority-based disambiguation.

The AST builder and the evaluator of the repository are not part of the
grammar file; they are modelled from the specification (§3, §4.3, §4.4, §6)
and carry `Modelled from the spec:` doc comments.
-/

/-- Terminal class LETTER of the grammar: an ASCII letter a–z or A–Z. -/
def isLETTER (c : Char) : Bool :=
  ('a' ≤ c && c ≤ 'z') || ('A' ≤ c && c ≤ 'Z')

/-- Terminal class DIGIT of the grammar: an ASCII digit 0–9. -/
def isDIGIT (c : Char) : Bool :=
  '0' ≤ c && c ≤ '9'

/-- Modelled from the spec: the grammar imports its `WS` terminal from a
terminals file that is not in the sources; per the spec, whitespace between
tokens is insignificant while newline is the statement terminator, so `WS`
is a space or a tab. -/
def isWS (c : Char) : Bool :=
  c = ' ' || c = '\t'

/-- Lower-case an ASCII letter; other characters are unchanged. -/
def lowerChar (c : Char) : Char :=
  if 'A' ≤ c && c ≤ 'Z' then Char.ofNat (c.toNat + 32) else c

/-- Case-fold a name to lower case (the AST builder normalizes case). -/
def lowerStr (s : String) : String :=
  String.mk (s.data.map lowerChar)

/-- Drop ignored whitespace (the grammar's `%ignore WS`). -/
def skipWS : List Char → List Char
  | [] => []
  | c :: cs => if isWS c then skipWS cs else c :: cs

/-- Longest prefix of characters satisfying `p`, with the rest. -/
def takeRun (p : Char → Bool) : List Char → List Char × List Char
  | [] => ([], [])
  | c :: cs =>
    if p c then
      let r := takeRun p cs
      (c :: r.1, r.2)
    else ([], c :: cs)

/-- The grammar's `word` rule: one or more letters or digits. -/
def takeWord (cs : List Char) : Option (String × List Char) :=
  let r := takeRun (fun c => isLETTER c || isDIGIT c) cs
  if r.1.isEmpty then none else some (String.mk r.1, r.2)

/-- The grammar's `letters` rule: one or more letters. -/
def takeLetters (cs : List Char) : Option (String × List Char) :=
  let r := takeRun isLETTER cs
  if r.1.isEmpty then none else some (String.mk r.1, r.2)

/-- Numeric value of a digit run. -/
def digitsToNat (ds : List Char) : Nat :=
  ds.foldl (fun acc c => 10 * acc + (c.toNat - '0'.toNat)) 0

/-- Modelled from the spec: the `UNSIGNED_INT` terminal (imported from the
missing terminals file) is an ordinary unsigned decimal integer. -/
def takeUInt (cs : List Char) : Option (Nat × List Char) :=
  let r := takeRun isDIGIT cs
  if r.1.isEmpty then none else some (digitsToNat r.1, r.2)

/-- Modelled from the spec: the `SIGNED_INT` terminal (imported as `INT`) is
an optionally signed decimal integer. -/
def takeInt : List Char → Option (Int × List Char)
  | '-' :: cs => (takeUInt cs).map (fun r => (-(r.1 : Int), r.2))
  | '+' :: cs => (takeUInt cs).map (fun r => ((r.1 : Int), r.2))
  | cs => (takeUInt cs).map (fun r => ((r.1 : Int), r.2))

/-- Match a literal keyword case-insensitively (the grammar's `"…"i`). -/
def matchCI : List Char → List Char → Option (List Char)
  | [], cs => some cs
  | _ :: _, [] => none
  | k :: ks, c :: cs => if lowerChar c = lowerChar k then matchCI ks cs else none

/-- Match a literal keyword case-sensitively (a plain `"…"` literal). -/
def matchStr : List Char → List Char → Option (List Char)
  | [], cs => some cs
  | _ :: _, [] => none
  | k :: ks, c :: cs => if c = k then matchStr ks cs else none

/-- Argument shape `(letters | unsigned_integer+)` shared by the `atom`,
`element` and `residue` rules. -/
inductive SelArg where
  | letters (s : String)
  | nums (ns : List Nat)
deriving Repr, DecidableEq

/-- Modelled from the spec: the semantic AST (`SelectionNode`, §3), one
variant per grammar rule plus the three combinators. -/
inductive SNode where
  | atomtype (name : String)
  | atom (name : String) (arg : SelArg)
  | element (arg : SelArg)
  | residue (arg : SelArg)
  | residueNumber (sel : SNode)
  | index (v : Int)
  | indexRange (first last step : Int)
  | all
  | and (l r : SNode)
  | without (l r : SNode)
  | or (children : List SNode)
deriving Repr

/-- Modelled from the spec: AST construction for the `indices` rule
(`integer ("-"|"..") integer (".." integer)?`).  With two integers the step
defaults to `1`; when the third integer is present, the 3-argument form is
"range with explicit step": the second integer is the step size, not a
second endpoint. -/
def buildIndices (a b : Int) : Option Int → SNode
  | none => .indexRange a b 1
  | some c => .indexRange a c b

/-- Parse the `index` / `indices` alternatives, which start with a signed
integer. -/
def parseIndexOrIndices (cs : List Char) : Option (SNode × List Char) :=
  match takeInt cs with
  | none => none
  | some (a, r1) =>
    match skipWS r1 with
    | '.' :: '.' :: r2 =>
      (match takeInt (skipWS r2) with
       | none => none
       | some (b, r3) =>
         match skipWS r3 with
         | '.' :: '.' :: r4 =>
           (match takeInt (skipWS r4) with
            | none => none
            | some (c, r5) => some (buildIndices a b (some c), r5))
         | _ => some (buildIndices a b none, r3))
    | '-' :: r2 =>
      (match takeInt (skipWS r2) with
       | none => none
       | some (b, r3) =>
         match skipWS r3 with
         | '.' :: '.' :: r4 =>
           (match takeInt (skipWS r4) with
            | none => none
            | some (c, r5) => some (buildIndices a b (some c), r5))
         | _ => some (buildIndices a b none, r3))
    | _ => some (.index a, r1)

/-- Parse the shared argument `(letters | unsigned_integer+)`; letter names
are case-folded by the builder. -/
def takeUInts : Nat → List Char → Option (List Nat × List Char)
  | 0, _ => none
  | fuel + 1, cs =>
    match takeUInt (skipWS cs) with
    | none => none
    | some (n, rest) =>
      match takeUInts fuel rest with
      | some (ns, rest2) => some (n :: ns, rest2)
      | none => some ([n], rest)

/-- Parse a `SelArg`: letters, or one or more unsigned integers. -/
def takeSelArg (cs0 : List Char) : Option (SelArg × List Char) :=
  let cs := skipWS cs0
  match cs with
  | [] => none
  | c :: _ =>
    if isLETTER c then
      (takeLetters cs).map (fun r => (.letters (lowerStr r.1), r.2))
    else
      (takeUInts (cs.length + 1) cs).map (fun r => (.nums r.1, r.2))

/-- Bare `word` (atomtype) or numeric `index`/`indices` leaf.  A run that is
all digits is an integer (the `index`/`indices` rules); a run containing a
letter is a `word`. -/
def parseWordOrInt (cs : List Char) : Option (SNode × List Char) :=
  match cs with
  | [] => none
  | c :: _ =>
    if c = '-' || c = '+' then parseIndexOrIndices cs
    else if isDIGIT c then
      let run := (takeRun (fun ch => isLETTER ch || isDIGIT ch) cs).1
      if run.all isDIGIT then parseIndexOrIndices cs
      else (takeWord cs).map (fun r => (.atomtype (lowerStr r.1), r.2))
    else if isLETTER c then
      (takeWord cs).map (fun r => (.atomtype (lowerStr r.1), r.2))
    else none

/-- True when the remaining input continues a word (used to keep the `all`
keyword from swallowing a prefix of a longer word such as `alles`). -/
def continuesWord : List Char → Bool
  | [] => false
  | c :: _ => isLETTER c || isDIGIT c

/-- Parse one leaf (`atomic_expression` alternative other than the
parenthesized group).  The keywords `atom(`, `elem(`, `res(`, `res~` are
case-insensitive (their grammar literals carry the `i` flag); the literal
`all` is case-sensitive (no `i` flag) and `*` is its synonym, preferred over
the `word` rule by its higher priority. -/
def parseLeaf (cs0 : List Char) : Option (SNode × List Char) :=
  let cs := skipWS cs0
  match matchCI "atom(".data cs with
  | some r =>
    (match takeWord (skipWS r) with
     | none => none
     | some (w, r1) =>
       match skipWS r1 with
       | ',' :: r2 =>
         (match takeSelArg r2 with
          | none => none
          | some (arg, r3) =>
            match skipWS r3 with
            | ')' :: r4 => some (.atom (lowerStr w) arg, r4)
            | _ => none)
       | _ => none)
  | none =>
  match matchCI "elem(".data cs with
  | some r =>
    (match takeSelArg r with
     | none => none
     | some (arg, r1) =>
       match skipWS r1 with
       | ')' :: r2 => some (.element arg, r2)
       | _ => none)
  | none =>
  match matchCI "res~".data cs with
  | some r =>
    (match parseIndexOrIndices (skipWS r) with
     | none => none
     | some (sel, r1) => some (.residueNumber sel, r1))
  | none =>
  match matchCI "res(".data cs with
  | some r =>
    (match takeSelArg r with
     | none => none
     | some (arg, r1) =>
       match skipWS r1 with
       | ')' :: r2 => some (.residue arg, r2)
       | _ => none)
  | none =>
  match cs with
  | '*' :: r => some (.all, r)
  | _ =>
  match matchStr "all".data cs with
  | some r => if continuesWord r then parseWordOrInt cs else some (.all, r)
  | none => parseWordOrInt cs

/-- Parse an `atomic_expression`: a parenthesized statement or a leaf; the
statement continuation is passed in to close the grammar's recursion. -/
def parseAtomicWith (pstmt : List Char → Option (SNode × List Char))
    (cs0 : List Char) : Option (SNode × List Char) :=
  let cs := skipWS cs0
  match cs with
  | '(' :: r =>
    (match pstmt r with
     | none => none
     | some (n, r1) =>
       match skipWS r1 with
       | ')' :: r2 => some (n, r2)
       | _ => none)
  | _ => parseLeaf cs

/-- Left-associated tail of `and_statement`: `("&" statement)*`. -/
def andTail (patomic : List Char → Option (SNode × List Char)) :
    Nat → SNode → List Char → Option (SNode × List Char)
  | 0, _, _ => none
  | fuel + 1, acc, cs =>
    match skipWS cs with
    | '&' :: r =>
      (match patomic r with
       | none => none
       | some (n, r1) => andTail patomic fuel (.and acc n) r1)
    | _ => some (acc, cs)

/-- `and_statement`: atomic terms joined by `&` (binds tightest). -/
def parseAndWith (patomic : List Char → Option (SNode × List Char))
    (cs : List Char) : Option (SNode × List Char) :=
  match patomic cs with
  | none => none
  | some (n, r) => andTail patomic (r.length + 1) n r

/-- Left-associated tail of `without_statement`: `("|" statement)*`. -/
def withoutTail (pand : List Char → Option (SNode × List Char)) :
    Nat → SNode → List Char → Option (SNode × List Char)
  | 0, _, _ => none
  | fuel + 1, acc, cs =>
    match skipWS cs with
    | '|' :: r =>
      (match pand r with
       | none => none
       | some (n, r1) => withoutTail pand fuel (.without acc n) r1)
    | _ => some (acc, cs)

/-- `without_statement`: and-groups joined by `|`. -/
def parseWithoutWith (pand : List Char → Option (SNode × List Char))
    (cs : List Char) : Option (SNode × List Char) :=
  match pand cs with
  | none => none
  | some (n, r) => withoutTail pand (r.length + 1) n r

/-- Tail of `or_statement`: `("," statement)*`, collecting the clauses. -/
def orTail (pwo : List Char → Option (SNode × List Char)) :
    Nat → List SNode → List Char → Option (List SNode × List Char)
  | 0, _, _ => none
  | fuel + 1, acc, cs =>
    match skipWS cs with
    | ',' :: r =>
      (match pwo r with
       | none => none
       | some (n, r1) => orTail pwo fuel (acc ++ [n]) r1)
    | _ => some (acc, cs)

/-- `statement`: the comma-separated `or_statement` is the outermost level;
a single clause is inlined (the grammar's `?`-rules collapse single-child
nodes), several clauses build an `Or` node. -/
def parseStatementCore (patomic : List Char → Option (SNode × List Char))
    (cs : List Char) : Option (SNode × List Char) :=
  let pwo := parseWithoutWith (parseAndWith patomic)
  match pwo cs with
  | none => none
  | some (n, r) =>
    match orTail pwo (r.length + 1) [n] r with
    | none => none
    | some ([x], r2) => some (x, r2)
    | some (ns, r2) => some (.or ns, r2)

/-- `statement`, with fuel bounding the parenthesis-nesting recursion. -/
def parseStatement : Nat → List Char → Option (SNode × List Char)
  | 0, _ => none
  | fuel + 1, cs => parseStatementCore (parseAtomicWith (parseStatement fuel)) cs

/-- Drop trailing ignored whitespace and `NEWLINE` terminals. -/
def dropNewlines : List Char → List Char
  | [] => []
  | c :: cs => if isWS c || c = '\n' || c = '\r' then dropNewlines cs else c :: cs

/-- The grammar's start symbol: `expression: statement NEWLINE*`; the whole
input must be consumed. -/
def parseSelection (s : String) : Option SNode :=
  match parseStatement (s.data.length + 8) s.data with
  | none => none
  | some (n, r) => if (dropNewlines r).isEmpty then some n else none

/-- Modelled from the spec: `OutOfRangeError{index, atom_count}` (§6), the
single evaluation-time error. -/
inductive EvalErr where
  | outOfRange (index : Int) (atom_count : Nat)
deriving Repr, DecidableEq

/-- Modelled from the spec: the minimal read-only topology query interface
the evaluator consumes (§6) — atom count, per-atom name / element symbol /
atomic number, residue membership, residue names and members, and a stable
enumeration of residue ids. -/
structure Topology where
  atom_count : Nat
  atom_name : Nat → String
  atom_element : Nat → String
  atom_atomic_number : Nat → Nat
  residue_of : Nat → Nat
  residue_ids : List Nat
  residue_name : Nat → String
  residue_atom_indices : Nat → List Nat

/-- Case-insensitive name matching used by the evaluator (§4.4). -/
def nameMatches (a b : String) : Bool :=
  lowerStr a = lowerStr b

/-- Atoms of the topology satisfying a predicate. -/
def atomsWhere (t : Topology) (p : Nat → Bool) : Finset Nat :=
  (Finset.range t.atom_count).filter (fun i => p i = true)

/-- Within-name ordinal of atom `i` among the atoms named `name`. -/
def atomOrdinal (t : Topology) (name : String) (i : Nat) : Nat :=
  ((List.range i).filter (fun j => nameMatches (t.atom_name j) name)).length

/-- Modelled from the spec: the residue-id set denoted by the inner
`index`/`indices` selector of a `res~` node. -/
def residSet : SNode → Finset Int
  | .index v => {v}
  | .indexRange a b st => (Finset.Icc a b).filter (fun k => (k - a) % st = 0)
  | _ => ∅

mutual

/-- Modelled from the spec: the evaluator (§4.4).  A pure function of the
node and the topology producing a set of 0-based atom indices; unknown
names degrade to the empty set, out-of-range numeric indices are fatal
(`OutOfRangeError`), the combinators are set intersection, difference and
union. -/
def eval (t : Topology) : SNode → Except EvalErr (Finset Nat)
  | .atomtype name => .ok (atomsWhere t (fun i => nameMatches (t.atom_name i) name))
  | .atom name arg =>
    .ok (match arg with
      | .nums ids =>
        atomsWhere t (fun i =>
          nameMatches (t.atom_name i) name && ids.contains (atomOrdinal t name i))
      | .letters _ => ∅)
  | .element arg =>
    .ok (match arg with
      | .letters s => atomsWhere t (fun i => nameMatches (t.atom_element i) s)
      | .nums ns => atomsWhere t (fun i => ns.contains (t.atom_atomic_number i)))
  | .residue arg =>
    .ok (match arg with
      | .letters s =>
        atomsWhere t (fun i => nameMatches (t.residue_name (t.residue_of i)) s)
      | .nums ns => atomsWhere t (fun i => ns.contains (t.residue_of i)))
  | .residueNumber sel =>
    .ok (t.residue_ids.foldl
      (fun acc r =>
        if Int.ofNat r ∈ residSet sel then acc ∪ (t.residue_atom_indices r).toFinset
        else acc)
      ∅)
  | .index v =>
    if 0 ≤ v ∧ v < (t.atom_count : Int) then .ok {v.toNat}
    else .error (.outOfRange v t.atom_count)
  | .indexRange a b st =>
    if ∀ k ∈ (Finset.Icc a b).filter (fun k => (k - a) % st = 0),
        0 ≤ k ∧ k < (t.atom_count : Int) then
      .ok (((Finset.Icc a b).filter (fun k => (k - a) % st = 0)).image Int.toNat)
    else .error (.outOfRange a t.atom_count)
  | .all => .ok (Finset.range t.atom_count)
  | .and l r => do
    let a ← eval t l
    let b ← eval t r
    pure (a ∩ b)
  | .without l r => do
    let a ← eval t l
    let b ← eval t r
    pure (a \ b)
  | .or cs => evalList t cs

/-- Evaluate the children of an `Or` node and union their sets. -/
def evalList (t : Topology) : List SNode → Except EvalErr (Finset Nat)
  | [] => .ok ∅
  | c :: cs => do
    let a ← eval t c
    let b ← evalList t cs
    pure (a ∪ b)

end

instance {ε α : Type} [DecidableEq ε] [DecidableEq α] : DecidableEq (Except ε α) :=
  fun a b =>
    match a, b with
    | .ok x, .ok y =>
      if h : x = y then .isTrue (by rw [h])
      else .isFalse (fun hh => h (Except.ok.inj hh))
    | .ok _, .error _ => .isFalse (fun hh => Except.noConfusion hh)
    | .error _, .ok _ => .isFalse (fun hh => Except.noConfusion hh)
    | .error x, .error y =>
      if h : x = y then .isTrue (by rw [h])
      else .isFalse (fun hh => h (Except.error.inj hh))

/-- Insert a value into an ascending list, keeping it ascending. -/
def insertAsc (n : Nat) : List Nat → List Nat
  | [] => [n]
  | m :: ms => if n ≤ m then n :: m :: ms else m :: insertAsc n ms

/-- Insertion sort into ascending order. -/
def sortAsc (l : List Nat) : List Nat :=
  l.foldr insertAsc []

theorem insertAsc_nil (n : Nat) : insertAsc n [] = [n] := rfl

theorem insertAsc_cons (n m : Nat) (ms : List Nat) :
    insertAsc n (m :: ms) = if n ≤ m then n :: m :: ms else m :: insertAsc n ms :=
  rfl

theorem insertAsc_perm (n : Nat) (l : List Nat) :
    List.Perm (insertAsc n l) (n :: l) := by
  induction l with
  | nil => simp [insertAsc]
  | cons m ms ih =>
    by_cases h : n ≤ m
    · simp [insertAsc_cons, h]
    · rw [insertAsc_cons, if_neg h]
      exact ((ih.cons m).trans (List.Perm.swap n m ms))

theorem sortAsc_perm (l : List Nat) : List.Perm (sortAsc l) l := by
  induction l with
  | nil => simp [sortAsc]
  | cons m ms ih =>
    exact (insertAsc_perm m (sortAsc ms)).trans (ih.cons m)

theorem insertAsc_sorted (n : Nat) (l : List Nat)
    (h : l.Sorted (· ≤ ·)) : (insertAsc n l).Sorted (· ≤ ·) := by
  induction l with
  | nil => simp [insertAsc]
  | cons m ms ih =>
    rw [List.sorted_cons] at h
    by_cases hle : n ≤ m
    · rw [insertAsc_cons, if_pos hle, List.sorted_cons]
      refine ⟨?_, List.sorted_cons.mpr h⟩
      intro b hb
      rcases List.mem_cons.mp hb with rfl | hb
      · exact hle
      · exact le_trans hle (h.1 b hb)
    · rw [insertAsc_cons, if_neg hle, List.sorted_cons]
      refine ⟨?_, ih h.2⟩
      intro b hb
      rcases List.mem_cons.mp ((insertAsc_perm n ms).mem_iff.mp hb) with rfl | hb
      · omega
      · exact h.1 b hb

theorem sortAsc_sorted (l : List Nat) : (sortAsc l).Sorted (· ≤ ·) := by
  induction l with
  | nil => simp [sortAsc]
  | cons m ms ih => exact insertAsc_sorted m (sortAsc ms) ih

theorem insertAsc_comm (a b : Nat) (l : List Nat) :
    insertAsc a (insertAsc b l) = insertAsc b (insertAsc a l) := by
  induction l with
  | nil =>
    rcases Nat.lt_trichotomy a b with h | h | h
    · simp [insertAsc_nil, insertAsc_cons, show a ≤ b by omega,
        show ¬ b ≤ a by omega]
    · subst h
      rfl
    · simp [insertAsc_nil, insertAsc_cons, show b ≤ a by omega,
        show ¬ a ≤ b by omega]
  | cons m ms ih =>
    rcases Nat.lt_trichotomy a b with hab | hab | hab
    · by_cases hbm : b ≤ m
      · simp [insertAsc_cons, hbm, show a ≤ m by omega, show a ≤ b by omega,
          show ¬ b ≤ a by omega]
      · by_cases ham : a ≤ m
        · simp [insertAsc_cons, hbm, ham, show ¬ b ≤ a by omega]
        · simp [insertAsc_cons, hbm, ham, ih]
    · subst hab
      rfl
    · by_cases ham : a ≤ m
      · simp [insertAsc_cons, ham, show b ≤ m by omega, show b ≤ a by omega,
          show ¬ a ≤ b by omega]
      · by_cases hbm : b ≤ m
        · simp [insertAsc_cons, hbm, ham, show ¬ a ≤ b by omega]
        · simp [insertAsc_cons, hbm, ham, ih]

theorem sortAsc_eq_of_perm {l₁ l₂ : List Nat} (h : List.Perm l₁ l₂) :
    sortAsc l₁ = sortAsc l₂ := by
  induction h with
  | nil => rfl
  | cons x _ ih => simp only [sortAsc, List.foldr_cons] at ih ⊢; rw [ih]
  | swap x y l => simp only [sortAsc, List.foldr_cons]; rw [insertAsc_comm]
  | trans _ _ ih₁ ih₂ => exact ih₁.trans ih₂

/-- Ascending list of the elements of a multiset (insertion sort lifted to
the quotient). -/
def msortAsc (s : Multiset Nat) : List Nat :=
  Quot.liftOn s sortAsc (fun _ _ h => sortAsc_eq_of_perm h)

theorem msortAsc_coe (l : List Nat) : msortAsc (↑l) = sortAsc l := rfl

/-- Modelled from the spec: the boundary output (§4.5) — the resolved set
as an ascending, duplicate-free sequence. -/
def evalSelection (t : Topology) (n : SNode) : Except EvalErr (List Nat) :=
  (eval t n).map (fun s => msortAsc s.1)

/-- The §8 scenario topology: atoms `[H,H,C,C,O]` (indices 0–4), residue 1
named MOL holding atoms 0–2 and residue 2 named WAT holding atoms 3–4. -/
def sampleTopology : Topology where
  atom_count := 5
  atom_name := fun i => ["H", "H", "C", "C", "O"].getD i ""
  atom_element := fun i => ["H", "H", "C", "C", "O"].getD i ""
  atom_atomic_number := fun i => [1, 1, 6, 6, 8].getD i 0
  residue_of := fun i => [1, 1, 1, 2, 2].getD i 0
  residue_ids := [1, 2]
  residue_name := fun r => if r = 1 then "MOL" else if r = 2 then "WAT" else ""
  residue_atom_indices := fun r =>
    if r = 1 then [0, 1, 2] else if r = 2 then [3, 4] else []

/-- A 10-atom topology (the §8 out-of-range scenario). -/
def tenAtomTopology : Topology where
  atom_count := 10
  atom_name := fun _ => "H"
  atom_element := fun _ => "H"
  atom_atomic_number := fun _ => 1
  residue_of := fun _ => 1
  residue_ids := [1]
  residue_name := fun _ => "MOL"
  residue_atom_indices := fun r => if r = 1 then List.range 10 else []

theorem msortAsc_sorted (m : Multiset Nat) : (msortAsc m).Sorted (· ≤ ·) :=
  Quotient.inductionOn m sortAsc_sorted

theorem msortAsc_nodup (m : Multiset Nat) : m.Nodup → (msortAsc m).Nodup :=
  Quotient.inductionOn m (fun l hl => ((sortAsc_perm l).nodup_iff).mpr hl)

theorem atomsWhere_eq_empty (t : Topology) (p : Nat → Bool)
    (h : ∀ i, i < t.atom_count → p i = false) : atomsWhere t p = ∅ := by
  rw [atomsWhere, Finset.filter_eq_empty_iff]
  intro i hi
  rw [Finset.mem_range] at hi
  simp [h i hi]

theorem eval_and_ok (t : Topology) {A B : SNode} {sa sb : Finset Nat}
    (hA : eval t A = .ok sa) (hB : eval t B = .ok sb) :
    eval t (.and A B) = .ok (sa ∩ sb) := by
  simp only [eval]
  rw [hA, hB]
  rfl

theorem eval_without_ok (t : Topology) {A B : SNode} {sa sb : Finset Nat}
    (hA : eval t A = .ok sa) (hB : eval t B = .ok sb) :
    eval t (.without A B) = .ok (sa \ sb) := by
  simp only [eval]
  rw [hA, hB]
  rfl

theorem eval_or_pair_ok (t : Topology) {A B : SNode} {sa sb : Finset Nat}
    (hA : eval t A = .ok sa) (hB : eval t B = .ok sb) :
    eval t (.or [A, B]) = .ok (sa ∪ sb) := by
  have h0 : evalList t [A, B] = .ok (sa ∪ (sb ∪ ∅)) := by
    simp only [evalList]
    rw [hA, hB]
    rfl
  have h1 : eval t (.or [A, B]) = evalList t [A, B] := by
    simp only [eval]
  rw [h1, h0, Finset.union_empty]

theorem filter_step_one (s e : Int) :
    (Finset.Icc s e).filter (fun k => (k - s) % 1 = 0) = Finset.Icc s e :=
  Finset.filter_true_of_mem (fun _ _ => Int.emod_one _)

theorem image_toNat_Icc (s e : Int) (h0 : 0 ≤ s) (hse : s ≤ e) :
    (Finset.Icc s e).image Int.toNat = Finset.Icc s.toNat e.toNat := by
  ext m
  simp only [Finset.mem_image, Finset.mem_Icc]
  constructor
  · rintro ⟨k, ⟨hk1, hk2⟩, rfl⟩
    omega
  · rintro ⟨h1, h2⟩
    exact ⟨(m : Int), ⟨by omega, by omega⟩, by omega⟩

/-- C1: in a flat mix of the combinators without parentheses, `,` (union)
is the outermost grouping, `|` (without) groups next, and `&` (and) binds
most tightly to adjacent atomic terms; in particular "a & b | c, d" parses
to Or[ Without(And(a,b), c), d ]. -/
theorem c1_flat_precedence :
    parseSelection "a & b | c, d" =
      some (.or [.without (.and (.atomtype "a") (.atomtype "b")) (.atomtype "c"),
                 .atomtype "d"]) ∧
    parseSelection "a | b & c, d" =
      some (.or [.without (.atomtype "a") (.and (.atomtype "b") (.atomtype "c")),
                 .atomtype "d"]) ∧
    parseSelection "a, b & c | d" =
      some (.or [.atomtype "a",
                 .without (.and (.atomtype "b") (.atomtype "c")) (.atomtype "d")]) ∧
    parseSelection "a & b | c" =
      some (.without (.and (.atomtype "a") (.atomtype "b")) (.atomtype "c")) :=
  ⟨rfl, rfl, rfl, rfl⟩

/-- C2 counterexample: the claim that every keyword, `all` included, is
case-insensitive fails at the input "ALL": the grammar's `all` literal has
no `i` flag, so "ALL" matches the `word` rule and parses to an AtomType
node, not to the All node that "all" parses to. -/
theorem c2_all_uppercase_cex :
    parseSelection "ALL" = some (.atomtype "all") ∧
    parseSelection "all" = some .all ∧
    SNode.atomtype "all" ≠ SNode.all :=
  ⟨rfl, rfl, fun h => SNode.noConfusion h⟩

/-- C2 amended: the parenthesized keywords `atom(`, `elem(`, `res(` and the
prefix `res~` are case-insensitive, and `*` parses to the same All node as
`all`; the bare keyword `all` itself, however, is case-sensitive — "ALL"
parses to an AtomType word instead. -/
theorem c2_keyword_case_insensitivity :
    (parseSelection "ELEM(H)" = parseSelection "elem(H)" ∧
      parseSelection "elem(H)" = some (.element (.letters "h"))) ∧
    (parseSelection "ATOM(C,1)" = parseSelection "atom(C,1)" ∧
      parseSelection "atom(C,1)" = some (.atom "c" (.nums [1]))) ∧
    (parseSelection "RES(WAT)" = parseSelection "res(WAT)" ∧
      parseSelection "res(WAT)" = some (.residue (.letters "wat"))) ∧
    (parseSelection "RES~2" = parseSelection "res~2" ∧
      parseSelection "res~2" = some (.residueNumber (.index 2))) ∧
    (parseSelection "*" = some .all ∧ parseSelection "all" = some .all) ∧
    parseSelection "ALL" = some (.atomtype "all") :=
  ⟨⟨rfl, rfl⟩, ⟨rfl, rfl⟩, ⟨rfl, rfl⟩, ⟨rfl, rfl⟩, ⟨rfl, rfl⟩, rfl⟩

/-- C3 counterexample: the claim that an input of several newline-terminated
lines parses (each line reducing independently to `expression`) fails at
"a\nb\n": the start rule `expression: statement NEWLINE*` admits a single
statement followed by trailing newlines only, so the two-line input is a
syntax error. -/
theorem c3_multiline_cex :
    parseSelection "a\nb\n" = none ∧ parseSelection "elem(H)\nall\n" = none :=
  ⟨rfl, rfl⟩

/-- C3 amended: the grammar accepts exactly one statement, optionally
followed by trailing newlines; an input with a second statement on a
following line does not parse. -/
theorem c3_single_statement_trailing_newlines :
    parseSelection "a\n" = some (.atomtype "a") ∧
    parseSelection "a\n\n" = some (.atomtype "a") ∧
    parseSelection "elem(H)\n" = some (.element (.letters "h")) ∧
    parseSelection "a\nb\n" = none :=
  ⟨rfl, rfl, rfl, rfl⟩

/-- C4: evaluating Index(v) on a topology with atom count n yields the
singleton containing v when 0 ≤ v < n and fails with OutOfRangeError
otherwise; the index is never clipped. -/
theorem c4_index_out_of_range (t : Topology) (v : Int) :
    (0 ≤ v → v < (t.atom_count : Int) → eval t (.index v) = .ok {v.toNat}) ∧
    (¬ (0 ≤ v ∧ v < (t.atom_count : Int)) →
      eval t (.index v) = .error (.outOfRange v t.atom_count)) := by
  constructor
  · intro h1 h2
    simp only [eval]
    rw [if_pos ⟨h1, h2⟩]
  · intro h
    simp only [eval]
    rw [if_neg h]

/-- Witness for C4 at concrete inputs: on the 10-atom topology, Index(3)
resolves to {3} and Index(1000) is an OutOfRangeError. -/
theorem c4_index_out_of_range_witness :
    eval tenAtomTopology (.index 3) = .ok {(3 : Int).toNat} ∧
    eval tenAtomTopology (.index 1000) = .error (.outOfRange 1000 10) :=
  ⟨(c4_index_out_of_range tenAtomTopology 3).1 (by decide) (by decide),
   (c4_index_out_of_range tenAtomTopology 1000).2 (by decide)⟩

/-- C5: an AtomType, Element or Residue node whose name matches no atom or
residue of the topology evaluates to the empty set without error. -/
theorem c5_unknown_name_empty (t : Topology) (s : String) :
    ((∀ i, i < t.atom_count → nameMatches (t.atom_name i) s = false) →
      eval t (.atomtype s) = .ok ∅) ∧
    ((∀ i, i < t.atom_count → nameMatches (t.atom_element i) s = false) →
      eval t (.element (.letters s)) = .ok ∅) ∧
    ((∀ i, i < t.atom_count →
        nameMatches (t.residue_name (t.residue_of i)) s = false) →
      eval t (.residue (.letters s)) = .ok ∅) := by
  refine ⟨fun h => ?_, fun h => ?_, fun h => ?_⟩
  · simp only [eval]
    exact congrArg Except.ok (atomsWhere_eq_empty t _ h)
  · simp only [eval]
    exact congrArg Except.ok (atomsWhere_eq_empty t _ h)
  · simp only [eval]
    exact congrArg Except.ok (atomsWhere_eq_empty t _ h)

/-- Witness for C5 at a concrete input: elem(Xx) on the §8 scenario
topology (which has no element "Xx") evaluates to the empty set. -/
theorem c5_unknown_name_empty_witness :
    eval sampleTopology (.element (.letters "Xx")) = .ok ∅ :=
  (c5_unknown_name_empty sampleTopology "Xx").2.1 (by decide)

/-- C6: IndexRange(s,e,1) on a topology large enough to contain the range
evaluates to the inclusive set {s, …, e} when s ≤ e, and to the empty set
when s > e — the range is never auto-reversed. -/
theorem c6_range_semantics (t : Topology) (s e : Int) :
    (0 ≤ s → s ≤ e → e < (t.atom_count : Int) →
      eval t (.indexRange s e 1) = .ok (Finset.Icc s.toNat e.toNat)) ∧
    (e < s → eval t (.indexRange s e 1) = .ok ∅) := by
  constructor
  · intro h0 hse hn
    simp only [eval, filter_step_one]
    rw [if_pos, image_toNat_Icc s e h0 hse]
    intro k hk
    rw [Finset.mem_Icc] at hk
    omega
  · intro hes
    simp only [eval, filter_step_one]
    rw [Finset.Icc_eq_empty (by omega : ¬ s ≤ e)]
    rw [if_pos (fun k hk => absurd hk (Finset.not_mem_empty k))]
    rw [Finset.image_empty]

/-- Witness for C6 at concrete inputs: IndexRange(2,5,1) on the 10-atom
topology is {2,3,4,5} and IndexRange(5,2,1) is empty. -/
theorem c6_range_semantics_witness :
    eval tenAtomTopology (.indexRange 2 5 1) =
      .ok (Finset.Icc (Int.toNat 2) (Int.toNat 5)) ∧
    eval tenAtomTopology (.indexRange 5 2 1) = .ok ∅ :=
  ⟨(c6_range_semantics tenAtomTopology 2 5).1 (by decide) (by decide) (by decide),
   (c6_range_semantics tenAtomTopology 5 2).2 (by decide)⟩

/-- C7: the three-integer indices literal "a..b..c" builds a range node in
which the second integer is the step: the node is IndexRange(a, c, b),
the stepped inclusive range from a to c with step b. -/
theorem c7_three_int_indices_step :
    (∀ a b c : Int, buildIndices a b (some c) = .indexRange a c b) ∧
    parseSelection "2..3..9" = some (.indexRange 2 9 3) ∧
    parseSelection "0..2..8" = some (.indexRange 0 8 2) :=
  ⟨fun _ _ _ => rfl, rfl, rfl⟩

/-- C8: on every topology, And evaluates to the intersection, Without to
the set difference, and the two-child Or to the union of the children's
evaluation results. -/
theorem c8_set_algebra (t : Topology) (A B : SNode) (sa sb : Finset Nat)
    (hA : eval t A = .ok sa) (hB : eval t B = .ok sb) :
    eval t (.and A B) = .ok (sa ∩ sb) ∧
    eval t (.without A B) = .ok (sa \ sb) ∧
    eval t (.or [A, B]) = .ok (sa ∪ sb) :=
  ⟨eval_and_ok t hA hB, eval_without_ok t hA hB, eval_or_pair_ok t hA hB⟩

/-- Witness for C8 at concrete inputs on the §8 scenario topology, with
A = elem(H) (atoms {0,1}) and B = Index(1) (atom {1}). -/
theorem c8_set_algebra_witness :
    eval sampleTopology (.and (.element (.letters "H")) (.index 1)) =
      .ok (({0, 1} : Finset Nat) ∩ {1}) ∧
    eval sampleTopology (.without (.element (.letters "H")) (.index 1)) =
      .ok (({0, 1} : Finset Nat) \ {1}) ∧
    eval sampleTopology (.or [.element (.letters "H"), .index 1]) =
      .ok (({0, 1} : Finset Nat) ∪ {1}) :=
  c8_set_algebra sampleTopology (.element (.letters "H")) (.index 1)
    {0, 1} {1} (by decide) (by decide)

/-- C9: a successful evaluation returns a strictly ascending, duplicate-free
sequence of atom indices, and evaluating the same node on the same topology
again returns the identical sequence. -/
theorem c9_output_ascending_nodup (t : Topology) (n : SNode) (l : List Nat)
    (h : evalSelection t n = .ok l) :
    List.Sorted (· < ·) l ∧ l.Nodup ∧
      (∀ l', evalSelection t n = .ok l' → l' = l) := by
  rcases he : eval t n with e | s
  · rw [evalSelection, he] at h
    exact absurd h (fun hh => Except.noConfusion hh)
  · rw [evalSelection, he] at h
    have hl : l = msortAsc s.1 := (Except.ok.inj h).symm
    subst hl
    have hnd : (msortAsc s.1).Nodup := msortAsc_nodup s.1 s.nodup
    refine ⟨(msortAsc_sorted s.1).lt_of_le hnd, hnd, ?_⟩
    intro l' h'
    rw [evalSelection, he] at h'
    exact (Except.ok.inj h').symm

/-- Witness for C9 at a concrete input: "elem(H) or Index(3)" on the §8
scenario topology yields the ascending duplicate-free list [0, 1, 3]. -/
theorem c9_output_ascending_nodup_witness :
    List.Sorted (· < ·) [0, 1, 3] ∧ List.Nodup [0, 1, 3] ∧
      (∀ l', evalSelection sampleTopology
          (.or [.element (.letters "H"), .index 3]) = .ok l' → l' = [0, 1, 3]) :=
  c9_output_ascending_nodup sampleTopology
    (.or [.element (.letters "H"), .index 3]) [0, 1, 3] (by decide)

/-- C10: a signed integer is accepted as a bare index and as a bound of a
bare indices range, but the numeric arguments of atom(...), elem(...) and
res(...) are unsigned: "-1" parses as Index(-1) while "elem(-1)",
"atom(C,-1)" and "res(-1)" are syntax errors. -/
theorem c10_signed_bare_unsigned_args :
    parseSelection "-1" = some (.index (-1)) ∧
    parseSelection "-3--1" = some (.indexRange (-3) (-1) 1) ∧
    parseSelection "elem(-1)" = none ∧
    parseSelection "atom(C,-1)" = none ∧
    parseSelection "res(-1)" = none :=
  ⟨rfl, rfl, rfl, rfl, rfl⟩
